import Mathlib

/-!
Shallow embedding of `src/index.js` of the `mrm` task runner, together with
proofs of the specification claims about it.

Modelling conventions, used consistently below:

* A JavaScript object is modelled as an association list `Obj V = List (String × V)`
  in which the LAST binding of a key is its current value.  Under this reading,
  `Object.assign(target, src)` is list append `target ++ src` (bindings of `src`
  come later, hence override), and property lookup is `olookup`, which prefers
  later bindings.  All claims about objects are stated through `olookup`, which
  is the observable notion of object equality in the source.
* `undefined` is modelled as `Option.none`; JavaScript truthiness of strings is
  `s ≠ ""`, and truthiness of the dynamic `Value` type is `truthyValue`.
* The filesystem (`fs.existsSync`), the module resolver (`requireg.resolve`),
  the globber (`glob.sync(dir + "/*/index.js")`) and the module loader
  (`require`) are modelled as fields of an explicit environment record `Env`.
* Exceptions are modelled with `Option MrmError` outcomes; the `console.log`
  calls and the effects of invoked task modules are modelled as an event trace,
  so that execution order is observable.
-/

set_option autoImplicit false

namespace Mrm

universe u

variable {V : Type}

/-- A JavaScript object: an association list where the last binding of a key is
its current value (so appending a binding models a property write). -/
abbrev Obj (V : Type) := List (String × V)

/-- Property lookup on an `Obj`: the value of the LAST binding of `key`, or
`none` when the key is absent (JavaScript `undefined`). -/
def olookup (m : Obj V) (key : String) : Option V :=
  match m with
  | [] => none
  | (k, v) :: rest =>
    match olookup rest key with
    | some w => some w
    | none => if key = k then some v else none

/-- JavaScript `a !== undefined ? a : b` on optional values: the left operand
when present, otherwise the right. -/
def orOpt (a b : Option V) : Option V :=
  match a with
  | some v => some v
  | none => b

@[simp] theorem orOpt_some (v : V) (b : Option V) : orOpt (some v) b = some v := rfl

@[simp] theorem orOpt_none (b : Option V) : orOpt none b = b := rfl

@[simp] theorem orOpt_none_right (a : Option V) : orOpt a none = a := by
  cases a <;> rfl

theorem orOpt_assoc (a b c : Option V) :
    orOpt (orOpt a b) c = orOpt a (orOpt b c) := by
  cases a <;> cases b <;> rfl

@[simp] theorem olookup_nil (key : String) : olookup ([] : Obj V) key = none := rfl

theorem olookup_cons (k : String) (v : V) (rest : Obj V) (key : String) :
    olookup ((k, v) :: rest) key
      = orOpt (olookup rest key) (if key = k then some v else none) := by
  simp only [olookup]
  cases olookup rest key <;> rfl

theorem olookup_append (a b : Obj V) (key : String) :
    olookup (a ++ b) key = orOpt (olookup b key) (olookup a key) := by
  induction a with
  | nil => simp
  | cons hd tl ih =>
    obtain ⟨k, v⟩ := hd
    rw [List.cons_append, olookup_cons, olookup_cons, ih, orOpt_assoc]

/-- The dynamic value type for entries of the `options` object: numbers,
strings, booleans, arrays of task names (alias definitions) and nested objects
(the value of the `aliases` key). -/
inductive Value : Type where
  | vnum (n : Int)
  | vstr (s : String)
  | vbool (b : Bool)
  | vlist (tasks : List String)
  | vobj (entries : List (String × Value))

/-- JavaScript truthiness of a `Value`: `0`, `""` and `false` are falsy;
arrays and objects are always truthy. -/
def truthyValue : Value → Bool
  | .vnum n => n ≠ 0
  | .vstr s => s ≠ ""
  | .vbool b => b
  | .vlist _ => true
  | .vobj _ => true

/-- JavaScript truthiness of a possibly-`undefined` value. -/
def truthyOpt : Option Value → Bool
  | none => false
  | some v => truthyValue v

/-- The named error conditions of `src/errors.js`, each carrying its payload,
plus the two ways execution can fail that are not `Mrm` errors: a `TypeError`
(calling `.forEach` on a non-array) and an arbitrary failure thrown by an
invoked task module (tagged so distinct failures are distinguishable). -/
inductive MrmError : Type where
  | MrmUnknownTask (taskName : String)
  | MrmUnknownAlias (aliasName : String)
  | MrmUndefinedOption (unknown : List String)
  | TypeErrorThrown
  | TaskFailure (tag : Nat)
  deriving DecidableEq

/-- Observable events of a run: the two `console.log` progress lines, and the
(opaque, tagged) effects performed by invoked task modules. -/
inductive Event : Type where
  | logRunningAlias (aliasName : String)
  | logRunningTask (taskName : String)
  | taskOutput (tag : Nat)
  deriving DecidableEq

/-- The result of running a piece of code: the trace of events it performed, in
order, and `none` for normal completion or `some e` for an exception `e` that
propagated out. -/
abbrev Exec := List Event × Option MrmError

/-- The config accessor returned by `getConfigGetter`: its state is the mapping
held in its (closure-captured) `options` variable. -/
structure ConfigGetter (V : Type) : Type where
  options : Obj V

/-- `getConfigGetter(options)`: a fresh accessor over `options`. -/
def getConfigGetter (options : Obj V) : ConfigGetter V := ⟨options⟩

/-- `config(prop, defaultValue)` / `config.values()[prop]`: the value at
`prop`, or `defaultValue` when absent. -/
def ConfigGetter.get (c : ConfigGetter V) (prop : String) (defaultValue : Option V) :
    Option V :=
  orOpt (olookup c.options prop) defaultValue

/-- `config.values()`: the full mapping, as-is. -/
def ConfigGetter.values (c : ConfigGetter V) : Obj V := c.options

/-- `config.require(...names)`: collects the names whose value is `undefined`;
throws `MrmUndefinedOption` carrying them when there are any, otherwise
returns the accessor itself (chainable). -/
def ConfigGetter.require (c : ConfigGetter V) (names : List String) :
    Except MrmError (ConfigGetter V) :=
  let unknown := names.filter fun name => (olookup c.options name).isNone
  if unknown.length > 0 then
    .error (.MrmUndefinedOption unknown)
  else
    .ok c

/-- `config.defaults(defaultOptions)`: rebinds the captured `options` variable
to `Object.assign({}, defaultOptions, options)` (the current mapping's
bindings come last, hence win) and returns the accessor (chainable). -/
def ConfigGetter.defaults (c : ConfigGetter V) (defaultOptions : Obj V) :
    ConfigGetter V :=
  ⟨defaultOptions ++ c.options⟩

/-- A loaded task module: its callable entry point (receiving the config
accessor and `argv`, producing a trace and an optional thrown error) and the
optional `description` field. -/
structure TaskModule (V : Type) : Type where
  behavior : ConfigGetter V → Obj V → Exec
  description : Option String

/-- The ambient host environment: `fs.existsSync`, `requireg.resolve` (returning
`none` when a module identifier does not resolve), `require` for config files,
`glob.sync(dir + "/*/index.js")`, and `require` for task modules. -/
structure Env (V : Type) : Type where
  fileExists : String → Bool
  resolve : String → Option String
  configAt : String → Obj V
  globIndexJs : String → List String
  moduleAt : String → TaskModule V

/-- `key.startsWith(p)`, via the character list of the strings. -/
def strStartsWith (s p : String) : Bool :=
  p.data.isPrefixOf s.data

/-- `s.slice(n)` / dropping `n` leading characters. -/
def strDrop (s : String) (n : Nat) : String :=
  String.mk (s.data.drop n)

/-- `key.replace(/^config:/, '')`: removes one leading `config:` marker when
present, and leaves other keys unchanged. -/
def stripConfigKey (key : String) : String :=
  if strStartsWith key "config:" then strDrop key 7 else key

/-- `path.resolve(dir, filename)` for an absolute `dir` and relative
`filename`: joins them with a separator. -/
def pathResolve (dir filename : String) : String :=
  dir ++ "/" ++ filename

/-- Splitting a character list at `/` separators. -/
def splitSlash : List Char → List (List Char)
  | [] => [[]]
  | c :: rest =>
    match splitSlash rest with
    | [] => [[c]]
    | g :: gs => if c = '/' then [] :: g :: gs else (c :: g) :: gs

/-- Joining components with `/` separators. -/
def joinSlash : List (List Char) → List Char
  | [] => []
  | [g] => g
  | g :: gs => g ++ '/' :: joinSlash gs

/-- `path.dirname(p)` for a normalized slash-separated path: everything before
the last separator. -/
def pathDirname (p : String) : String :=
  String.mk (joinSlash (splitSlash p.data).dropLast)

/-- `path.basename(p)` for a normalized slash-separated path: the component
after the last separator. -/
def pathBasename (p : String) : String :=
  String.mk ((splitSlash p.data).getLastD [])

/-- `path.basename(path.dirname(filename))`: the task name of a glob match
`<dir>/<taskName>/index.js`. -/
def taskNameOf (filename : String) : String :=
  pathBasename (pathDirname filename)

/-- `firstResult(items, fn)`: the first truthy `fn(item)` over the truthy
items, in order; `none` when there is none.  Items and results are strings
(`none` models `undefined`, and the empty string is falsy). -/
def firstResult (items : List (Option String)) (fn : String → Option String) :
    Option String :=
  match items with
  | [] => none
  | item :: rest =>
    match item with
    | none => firstResult rest fn
    | some s =>
      if s = "" then firstResult rest fn
      else
        match fn s with
        | none => firstResult rest fn
        | some r => if r = "" then firstResult rest fn else some r

/-- `tryFile(directories, filename)`: the first `path.resolve(dir, filename)`
over the directories, in order, that exists as a file; `none` when none does. -/
def tryFile (env : Env V) (directories : List String) (filename : String) :
    Option String :=
  firstResult (directories.map some) fun dir =>
    let filepath := pathResolve dir filename
    if env.fileExists filepath then some filepath else none

/-- `tryResolve(...names)`: the first candidate module identifier the host can
resolve; `none` when none resolves.  The first candidate may be `undefined`
(the result of `tryFile`), which `firstResult` skips. -/
def tryResolve (env : Env V) (names : List (Option String)) : Option String :=
  firstResult names env.resolve

/-- `getConfigFromFile(directories, filename)`: locates the config file via
`tryFile`; an absent file yields the empty mapping, a found file is loaded with
`require`. -/
def getConfigFromFile (env : Env V) (directories : List String) (filename : String) :
    Obj V :=
  match tryFile env directories filename with
  | none => []
  | some "" => []
  | some filepath => env.configAt filepath

/-- The `forEach` loop body of `getConfigFromCommandLine`, threading the
`options` accumulator: a key starting with `config:` writes its stripped form,
any other key is ignored. -/
def getConfigFromCommandLineGo (argv : Obj V) (options : Obj V) : Obj V :=
  match argv with
  | [] => options
  | (key, value) :: rest =>
    getConfigFromCommandLineGo rest
      (if strStartsWith key "config:" then options ++ [(stripConfigKey key, value)]
       else options)

/-- `getConfigFromCommandLine(argv)`: the entries of `argv` whose key starts
with `config:`, with the marker stripped and the value kept verbatim. -/
def getConfigFromCommandLine (argv : Obj V) : Obj V :=
  getConfigFromCommandLineGo argv []

/-- `getConfig(directories, filename, argv)`:
`Object.assign({}, getConfigFromFile(...), getConfigFromCommandLine(argv))`,
i.e. the file config with the command-line config appended (hence winning). -/
def getConfig (env : Env V) (directories : List String) (filename : String)
    (argv : Obj V) : Obj V :=
  getConfigFromFile env directories filename ++ getConfigFromCommandLine argv

/-- `getAllAliases(options)`: lodash `get(options, 'aliases', {})`.  The
`aliases` value is an object in the data model; a missing (or non-object) value
yields the empty mapping. -/
def getAllAliases (options : Obj Value) : Obj Value :=
  match olookup options "aliases" with
  | some (.vobj entries) => entries
  | _ => []

/-- One `tasks.forEach` step of `getAllTasks`: for a glob match `filename`, the
task name is `basename(dirname(filename))`; when `allTasks[taskName]` is falsy
the module at `filename` is loaded and its `description || ''` recorded. -/
def getAllTasksScanFile (env : Env Value) (allTasks : Obj Value)
    (filename : String) : Obj Value :=
  let taskName := taskNameOf filename
  if truthyOpt (olookup allTasks taskName) then allTasks
  else allTasks ++ [(taskName, Value.vstr ((env.moduleAt filename).description.getD ""))]

/-- The scan of the glob matches of one directory, in order. -/
def getAllTasksScanFiles (env : Env Value) (files : List String)
    (allTasks : Obj Value) : Obj Value :=
  match files with
  | [] => allTasks
  | f :: rest => getAllTasksScanFiles env rest (getAllTasksScanFile env allTasks f)

/-- The `for (const dir of directories)` loop of `getAllTasks`. -/
def getAllTasksScanDirs (env : Env Value) (directories : List String)
    (allTasks : Obj Value) : Obj Value :=
  match directories with
  | [] => allTasks
  | dir :: rest =>
    getAllTasksScanDirs env rest (getAllTasksScanFiles env (env.globIndexJs dir) allTasks)

/-- `getAllTasks(directories, options)`.  In the source, `allTasks` starts as
`getAllAliases(options)`, which — when `options.aliases` is an object — is that
very object, so every write to `allTasks` is visible through `options`.  The
embedding returns both the result object and the post-call state of the
caller's `options`. -/
def getAllTasks (env : Env Value) (directories : List String)
    (options : Obj Value) : Obj Value × Obj Value :=
  let aliased :=
    match olookup options "aliases" with
    | some (.vobj _) => true
    | _ => false
  let result := getAllTasksScanDirs env directories (getAllAliases options)
  (result, if aliased then options ++ [("aliases", Value.vobj result)] else options)

/-- `runTask(taskName, directories, options, argv)`: resolves the three
candidates `[tryFile(directories, taskName + "/index.js"), "mrm-task-" +
taskName, taskName]`; a falsy resolution throws `MrmUnknownTask(taskName)`,
otherwise the `Running <taskName>...` line is logged and the loaded module is
called with a fresh config getter over `options` and the raw `argv`. -/
def runTask (env : Env Value) (taskName : String) (directories : List String)
    (options : Obj Value) (argv : Obj Value) : Exec :=
  let modulePath :=
    tryResolve env
      [tryFile env directories (taskName ++ "/index.js"),
       some ("mrm-task-" ++ taskName),
       some taskName]
  match modulePath with
  | none => ([], some (.MrmUnknownTask taskName))
  | some "" => ([], some (.MrmUnknownTask taskName))
  | some p =>
    let r := (env.moduleAt p).behavior (getConfigGetter options) argv
    (Event.logRunningTask taskName :: r.1, r.2)

/-- `items.forEach(x => body(x))` under exception semantics: the bodies run in
list order, traces concatenate, and the first thrown error aborts the loop and
propagates. -/
def forEachRun {α : Type u} (body : α → Exec) (items : List α) : Exec :=
  match items with
  | [] => ([], none)
  | x :: rest =>
    let r := body x
    match r.2 with
    | some e => (r.1, some e)
    | none =>
      let rr := forEachRun body rest
      (r.1 ++ rr.1, rr.2)

/-- `runAlias(aliasName, directories, options, argv)`: looks the alias up in
`getAllAliases(options)`; a falsy entry throws `MrmUnknownAlias`, otherwise the
`Running alias ...` line is logged and each listed task is run with `runTask`,
in order (a truthy non-array entry makes `tasks.forEach` throw a
`TypeError`). -/
def runAlias (env : Env Value) (aliasName : String) (directories : List String)
    (options : Obj Value) (argv : Obj Value) : Exec :=
  let tasks := olookup (getAllAliases options) aliasName
  if truthyOpt tasks = false then
    ([], some (.MrmUnknownAlias aliasName))
  else
    match tasks with
    | some (.vlist ts) =>
      let r := forEachRun (fun name => runTask env name directories options argv) ts
      (Event.logRunningAlias aliasName :: r.1, r.2)
    | _ => ([Event.logRunningAlias aliasName], some .TypeErrorThrown)

/-- The single-name branch of `run`: dispatches on the truthiness of
`getAllAliases(options)[name]`. -/
def runSingle (env : Env Value) (name : String) (directories : List String)
    (options : Obj Value) (argv : Obj Value) : Exec :=
  if truthyOpt (olookup (getAllAliases options) name) then
    runAlias env name directories options argv
  else
    runTask env name directories options argv

/-- `run(name, directories, options, argv)`: an array of names runs each, in
order, through the single-name branch (stopping at the first thrown error); a
single name is dispatched directly. -/
def run (env : Env Value) (name : String ⊕ List String)
    (directories : List String) (options : Obj Value) (argv : Obj Value) : Exec :=
  match name with
  | .inl n => runSingle env n directories options argv
  | .inr names => forEachRun (fun n => runSingle env n directories options argv) names

theorem isPrefixOf_append_self (p l : List Char) :
    p.isPrefixOf (p ++ l) = true := by
  induction p with
  | nil => simp [List.isPrefixOf]
  | cons a as ih => simp [List.isPrefixOf, ih]

theorem append_drop_of_isPrefixOf :
    ∀ (p l : List Char), p.isPrefixOf l = true → p ++ l.drop p.length = l := by
  intro p
  induction p with
  | nil => intro l _; simp
  | cons a as ih =>
    intro l h
    cases l with
    | nil => simp [List.isPrefixOf] at h
    | cons b bs =>
      simp only [List.isPrefixOf, Bool.and_eq_true, beq_iff_eq] at h
      obtain ⟨rfl, h2⟩ := h
      simp only [List.length_cons, List.drop_succ_cons, List.cons_append,
        List.cons.injEq, true_and]
      exact ih bs h2

theorem strStartsWith_config_append (k : String) :
    strStartsWith ("config:" ++ k) "config:" = true := by
  show (("config:" : String).data.isPrefixOf (("config:" ++ k : String)).data) = true
  rw [String.data_append]
  exact isPrefixOf_append_self _ _

theorem config_append_stripped (K : String) (h : strStartsWith K "config:" = true) :
    "config:" ++ strDrop K 7 = K := by
  apply String.ext
  rw [String.data_append]
  have h7 : ("config:" : String).data.length = 7 := rfl
  have := append_drop_of_isPrefixOf ("config:" : String).data K.data h
  rw [h7] at this
  exact this

theorem strDrop_config_append (k : String) :
    strDrop ("config:" ++ k) 7 = k := by
  apply String.ext
  show (("config:" ++ k : String)).data.drop 7 = k.data
  rw [String.data_append]
  have h7 : (7 : Nat) = ("config:" : String).data.length := rfl
  rw [h7, List.drop_left]

theorem config_key_iff (K k : String) (h : strStartsWith K "config:" = true) :
    "config:" ++ k = K ↔ k = strDrop K 7 := by
  constructor
  · intro hk
    have := strDrop_config_append k
    rw [hk] at this
    exact this.symm
  · intro hk
    rw [hk]
    exact config_append_stripped K h

theorem gcfclGo_olookup {V : Type} (argv : Obj V) :
    ∀ (acc : Obj V) (k : String),
      olookup (getConfigFromCommandLineGo argv acc) k
        = orOpt (olookup argv ("config:" ++ k)) (olookup acc k) := by
  induction argv with
  | nil => intro acc k; simp [getConfigFromCommandLineGo]
  | cons hd rest ih =>
    intro acc k
    obtain ⟨K, v⟩ := hd
    rw [getConfigFromCommandLineGo, ih, olookup_cons, orOpt_assoc]
    congr 1
    by_cases hK : strStartsWith K "config:" = true
    · simp only [hK, if_true]
      rw [olookup_append, olookup_cons, olookup_nil, orOpt_none]
      simp only [stripConfigKey, hK, if_true]
      by_cases hk : "config:" ++ k = K
      · rw [if_pos hk, if_pos ((config_key_iff K k hK).mp hk)]
      · rw [if_neg hk, if_neg (fun h => hk ((config_key_iff K k hK).mpr h))]
    · simp only [Bool.not_eq_true] at hK
      have hne : "config:" ++ k ≠ K := by
        intro h
        rw [← h, strStartsWith_config_append k] at hK
        exact absurd hK (by decide)
      have hcond : ¬(strStartsWith K "config:" = true) := by
        simp [hK]
      rw [if_neg hne, orOpt_none, if_neg hcond]

theorem gcfclGo_mem {V : Type} (argv : Obj V) :
    ∀ (acc : Obj V) (e : String × V), e ∈ getConfigFromCommandLineGo argv acc →
      e ∈ acc ∨ ("config:" ++ e.1, e.2) ∈ argv := by
  induction argv with
  | nil => intro acc e he; exact Or.inl he
  | cons hd rest ih =>
    intro acc e he
    obtain ⟨K, v⟩ := hd
    rw [getConfigFromCommandLineGo] at he
    rcases ih _ e he with hacc | hrest
    · by_cases hK : strStartsWith K "config:" = true
      · rw [if_pos hK] at hacc
        rcases List.mem_append.mp hacc with h1 | h2
        · exact Or.inl h1
        · right
          have he2 : e = (stripConfigKey K, v) := List.mem_singleton.mp h2
          subst he2
          simp only [stripConfigKey, hK, if_true]
          rw [config_append_stripped K hK]
          exact List.mem_cons_self _ _
      · rw [if_neg hK] at hacc
        exact Or.inl hacc
    · exact Or.inr (List.mem_cons_of_mem _ hrest)

/-- C4: `getConfigFromCommandLine` keeps exactly the `config:`-prefixed entries
of `argv`: looking up `k` in its result is looking up `config:k` in `argv`
(so non-prefixed keys contribute nothing), and every entry of the result is a
verbatim `argv` entry with the marker stripped from its key. -/
theorem getConfigFromCommandLine_extracts_prefixed {V : Type} (argv : Obj V) :
    (∀ k, olookup (getConfigFromCommandLine argv) k = olookup argv ("config:" ++ k)) ∧
    (∀ e ∈ getConfigFromCommandLine argv, ("config:" ++ e.1, e.2) ∈ argv) := by
  constructor
  · intro k
    rw [getConfigFromCommandLine, gcfclGo_olookup, olookup_nil, orOpt_none_right]
  · intro e he
    rcases gcfclGo_mem argv [] e he with h | h
    · exact absurd h (List.not_mem_nil e)
    · exact h

/-- Witness for C4 at the spec's example `{ "config:a": 1, "b": 2 }`: the
result holds `a ↦ 1`, `b` contributes nothing, and the single result entry
comes verbatim from the `config:a` entry of `argv`. -/
theorem getConfigFromCommandLine_extracts_prefixed_witness :
    olookup (getConfigFromCommandLine [("config:a", (1 : Nat)), ("b", 2)]) "a" = some 1 ∧
    olookup (getConfigFromCommandLine [("config:a", (1 : Nat)), ("b", 2)]) "b" = none ∧
    getConfigFromCommandLine [("config:a", (1 : Nat)), ("b", 2)] = [("a", 1)] ∧
    ("config:" ++ "a", (1 : Nat)) ∈ [("config:a", (1 : Nat)), ("b", 2)] := by
  refine ⟨?_, ?_, by decide, ?_⟩
  · rw [(getConfigFromCommandLine_extracts_prefixed _).1 "a"]
    decide
  · rw [(getConfigFromCommandLine_extracts_prefixed _).1 "b"]
    decide
  · exact (getConfigFromCommandLine_extracts_prefixed
      [("config:a", (1 : Nat)), ("b", 2)]).2 ("a", 1) (by decide)

/-- C3: `getConfig` is the shallow merge of the file config and the
command-line config with the command-line entry winning on a shared key, and
an absent config file contributes the empty mapping rather than an error. -/
theorem getConfig_merge_precedence {V : Type} (env : Env V) (directories : List String)
    (filename : String) (argv : Obj V) :
    (∀ k, olookup (getConfig env directories filename argv) k
        = orOpt (olookup (getConfigFromCommandLine argv) k)
            (olookup (getConfigFromFile env directories filename) k)) ∧
    (tryFile env directories filename = none →
      getConfigFromFile env directories filename = ([] : Obj V)) := by
  constructor
  · intro k
    rw [getConfig, olookup_append]
  · intro h
    rw [getConfigFromFile, h]

/-- The environment of the C3 witness: a single config file
`confdir/cfg.js` exporting `{a: 1, b: 1}`. -/
def envC3 : Env Nat where
  fileExists := fun p => p == "confdir/cfg.js"
  resolve := fun _ => none
  configAt := fun p => if p == "confdir/cfg.js" then [("a", 1), ("b", 1)] else []
  globIndexJs := fun _ => []
  moduleAt := fun _ => ⟨fun _ _ => ([], none), none⟩

/-- The environment with no files and no resolvable modules. -/
def envEmptyNat : Env Nat where
  fileExists := fun _ => false
  resolve := fun _ => none
  configAt := fun _ => []
  globIndexJs := fun _ => []
  moduleAt := fun _ => ⟨fun _ _ => ([], none), none⟩

/-- Witness for C3 at the spec's example: file config `{a:1, b:1}` merged with
command line `--config:b 2` yields `{a:1, b:2}`, and with no config file
anywhere the file contribution is `{}`. -/
theorem getConfig_merge_precedence_witness :
    olookup (getConfig envC3 ["confdir"] "cfg.js" [("config:b", 2)]) "a" = some 1 ∧
    olookup (getConfig envC3 ["confdir"] "cfg.js" [("config:b", 2)]) "b" = some 2 ∧
    getConfigFromFile envEmptyNat ["confdir"] "cfg.js" = [] := by
  refine ⟨?_, ?_, ?_⟩
  · rw [(getConfig_merge_precedence envC3 ["confdir"] "cfg.js" [("config:b", 2)]).1 "a"]
    decide
  · rw [(getConfig_merge_precedence envC3 ["confdir"] "cfg.js" [("config:b", 2)]).1 "b"]
    decide
  · exact (getConfig_merge_precedence envEmptyNat ["confdir"] "cfg.js" []).2 (by decide)

/-- C5: `config.defaults(defaultOptions)` replaces the accessor's mapping with
`{...defaultOptions, ...currentMapping}`: a key present in the current mapping
keeps its value, a key absent from it takes the default's value. -/
theorem defaults_fills_missing_only {V : Type} (c : ConfigGetter V)
    (defaultOptions : Obj V) :
    (∀ k, olookup (c.defaults defaultOptions).options k
        = orOpt (olookup c.options k) (olookup defaultOptions k)) ∧
    (∀ k, olookup c.options k = none →
      olookup (c.defaults defaultOptions).options k = olookup defaultOptions k) ∧
    (∀ k v, olookup c.options k = some v →
      olookup (c.defaults defaultOptions).options k = some v) := by
  have base : ∀ k, olookup (c.defaults defaultOptions).options k
      = orOpt (olookup c.options k) (olookup defaultOptions k) := by
    intro k
    rw [ConfigGetter.defaults, olookup_append]
  refine ⟨base, ?_, ?_⟩
  · intro k h
    rw [base k, h, orOpt_none]
  · intro k v h
    rw [base k, h, orOpt_some]

/-- Witness for C5 at the spec's example: `setDefaults({a:1, b:1})` on an
accessor holding `{b:2}` yields `{a:1, b:2}`. -/
theorem defaults_fills_missing_only_witness :
    olookup ((getConfigGetter [("b", (2 : Nat))]).defaults
      [("a", 1), ("b", 1)]).options "a" = some 1 ∧
    olookup ((getConfigGetter [("b", (2 : Nat))]).defaults
      [("a", 1), ("b", 1)]).options "b" = some 2 := by
  constructor
  · rw [(defaults_fills_missing_only (getConfigGetter [("b", (2 : Nat))])
      [("a", 1), ("b", 1)]).2.1 "a" (by decide)]
    decide
  · exact (defaults_fills_missing_only (getConfigGetter [("b", (2 : Nat))])
      [("a", 1), ("b", 1)]).2.2 "b" 2 (by decide)

/-- C6: `config.require(names)` fails with `MrmUndefinedOption` carrying
exactly the named keys that are absent from the mapping when that list is
non-empty, and otherwise returns the accessor itself. -/
theorem require_reports_missing {V : Type} (c : ConfigGetter V) (names : List String) :
    (names.filter (fun n => (olookup c.options n).isNone) = [] →
      ConfigGetter.require c names = Except.ok c) ∧
    (names.filter (fun n => (olookup c.options n).isNone) ≠ [] →
      ConfigGetter.require c names
        = Except.error
            (.MrmUndefinedOption (names.filter fun n => (olookup c.options n).isNone))) ∧
    (∀ n, n ∈ names.filter (fun n => (olookup c.options n).isNone)
        ↔ n ∈ names ∧ olookup c.options n = none) := by
  refine ⟨?_, ?_, ?_⟩
  · intro h
    simp [ConfigGetter.require, h]
  · intro h
    have hl : 0 < (names.filter fun n => (olookup c.options n).isNone).length :=
      List.length_pos.mpr h
    simp [ConfigGetter.require, hl]
  · intro n
    simp [List.mem_filter, Option.isNone_iff_eq_none]

/-- Witness for C6 at the spec's example: requiring `x` and `y` on an accessor
holding `{x:1}` fails with `MrmUndefinedOption(['y'])`, and requiring only `x`
succeeds, returning the accessor. -/
theorem require_reports_missing_witness :
    ConfigGetter.require (getConfigGetter [("x", (1 : Nat))]) ["x", "y"]
      = Except.error (.MrmUndefinedOption ["y"]) ∧
    ConfigGetter.require (getConfigGetter [("x", (1 : Nat))]) ["x"]
      = Except.ok (getConfigGetter [("x", (1 : Nat))]) ∧
    ("y" ∈ ["x", "y"] ∧ olookup (getConfigGetter [("x", (1 : Nat))]).options "y" = none) := by
  refine ⟨?_, ?_, ?_⟩
  · rw [(require_reports_missing (getConfigGetter [("x", (1 : Nat))]) ["x", "y"]).2.1
      (by decide)]
    rfl
  · exact (require_reports_missing (getConfigGetter [("x", (1 : Nat))]) ["x"]).1 (by decide)
  · exact ((require_reports_missing (getConfigGetter [("x", (1 : Nat))])
      ["x", "y"]).2.2 "y").mp (by decide)

theorem strAppend_ne_empty_left (s u : String) (h : s.data ≠ []) : (s ++ u) ≠ "" := by
  intro he
  have hd := congrArg String.data he
  rw [String.data_append] at hd
  exact h (List.append_eq_nil.mp hd).1

theorem pathResolve_ne_empty (dir filename : String) :
    pathResolve dir filename ≠ "" := by
  apply strAppend_ne_empty_left
  rw [String.data_append]
  intro h
  exact List.noConfusion (List.append_eq_nil.mp h).2

theorem tryFile_cons {V : Type} (env : Env V) (d : String) (rest : List String)
    (filename : String) (hd : d ≠ "") :
    tryFile env (d :: rest) filename
      = if env.fileExists (pathResolve d filename)
        then some (pathResolve d filename)
        else tryFile env rest filename := by
  by_cases hex : env.fileExists (pathResolve d filename) = true
  · simp [tryFile, firstResult, hd, hex, pathResolve_ne_empty d filename]
  · simp [tryFile, firstResult, hd, hex]

theorem tryFile_eq_find {V : Type} (env : Env V) (directories : List String)
    (filename : String) (h : ∀ d ∈ directories, d ≠ "") :
    tryFile env directories filename
      = (directories.find? fun d => env.fileExists (pathResolve d filename)).map
          fun d => pathResolve d filename := by
  induction directories with
  | nil => rfl
  | cons d rest ih =>
    have hd : d ≠ "" := h d (List.mem_cons_self d rest)
    have hrest : ∀ x ∈ rest, x ≠ "" := fun x hx => h x (List.mem_cons_of_mem d hx)
    rw [tryFile_cons env d rest filename hd, List.find?_cons]
    by_cases hex : env.fileExists (pathResolve d filename) = true
    · rw [if_pos hex, hex]
      rfl
    · rw [if_neg hex, ih hrest]
      have hex' : env.fileExists (pathResolve d filename) = false :=
        Bool.not_eq_true _ ▸ hex
      rw [hex']

/-- C7: over (non-degenerate, non-empty-string) directory lists, `tryFile`
returns the path built from the first directory in list order whose
`directory/filename` exists, and returns `none` — not an error — when no
directory contains the file. -/
theorem tryFile_first_match {V : Type} (env : Env V) (directories : List String)
    (filename : String) (h : ∀ d ∈ directories, d ≠ "") :
    (∀ p, tryFile env directories filename = some p ↔
      ∃ d, (env.fileExists (pathResolve d filename) = true ∧
          ∃ pre post, directories = pre ++ d :: post ∧
            ∀ d' ∈ pre, env.fileExists (pathResolve d' filename) = false) ∧
        pathResolve d filename = p) ∧
    (tryFile env directories filename = none ↔
      ∀ d ∈ directories, env.fileExists (pathResolve d filename) = false) := by
  constructor
  · intro p
    rw [tryFile_eq_find env directories filename h, Option.map_eq_some']
    simp only [List.find?_eq_some, Bool.not_eq_true']
  · rw [tryFile_eq_find env directories filename h, Option.map_eq_none']
    simp only [List.find?_eq_none, Bool.not_eq_true]

/-- The environment of the C7 witness: the file `f.js` exists under `d2` and
`d3` but not under `d1`. -/
def envC7 : Env Nat where
  fileExists := fun p => p == "d2/f.js" || p == "d3/f.js"
  resolve := fun _ => none
  configAt := fun _ => []
  globIndexJs := fun _ => []
  moduleAt := fun _ => ⟨fun _ _ => ([], none), none⟩

/-- Witness for C7: over `["d1", "d2", "d3"]` the first directory containing
`f.js` is `d2` and its path is returned, and over `["d1"]` alone the result is
`none`. -/
theorem tryFile_first_match_witness :
    tryFile envC7 ["d1", "d2", "d3"] "f.js" = some "d2/f.js" ∧
    tryFile envC7 ["d1"] "f.js" = none := by
  constructor
  · exact ((tryFile_first_match envC7 ["d1", "d2", "d3"] "f.js" (by decide)).1
      "d2/f.js").mpr ⟨"d2", ⟨by decide, ["d1"], ["d3"], rfl, by decide⟩, rfl⟩
  · exact (tryFile_first_match envC7 ["d1"] "f.js" (by decide)).2.mpr (by decide)

theorem firstResult_ne_some_empty (items : List (Option String))
    (fn : String → Option String) : firstResult items fn ≠ some "" := by
  induction items with
  | nil => simp [firstResult]
  | cons item rest ih =>
    cases item with
    | none => simpa [firstResult] using ih
    | some s =>
      by_cases hs : s = ""
      · simpa [firstResult, hs] using ih
      · cases hfn : fn s with
        | none => simpa [firstResult, hs, hfn] using ih
        | some r =>
          by_cases hr : r = ""
          · simpa [firstResult, hs, hfn, hr] using ih
          · simp [firstResult, hs, hfn, hr]

theorem strAppend_mrm_task_ne_empty (t : String) : ("mrm-task-" ++ t) ≠ "" := by
  apply strAppend_ne_empty_left
  intro h
  exact List.noConfusion h

theorem runTask_eq_of_resolve_none (env : Env Value) (taskName : String)
    (directories : List String) (options argv : Obj Value)
    (h : tryResolve env
        [tryFile env directories (taskName ++ "/index.js"),
         some ("mrm-task-" ++ taskName), some taskName] = none) :
    runTask env taskName directories options argv
      = ([], some (.MrmUnknownTask taskName)) := by
  simp only [runTask, h]

theorem runTask_eq_of_resolve_some (env : Env Value) (taskName : String)
    (directories : List String) (options argv : Obj Value) (p : String)
    (h : tryResolve env
        [tryFile env directories (taskName ++ "/index.js"),
         some ("mrm-task-" ++ taskName), some taskName] = some p) :
    runTask env taskName directories options argv
      = (Event.logRunningTask taskName ::
          ((env.moduleAt p).behavior (getConfigGetter options) argv).1,
         ((env.moduleAt p).behavior (getConfigGetter options) argv).2) := by
  have hp : p ≠ "" := by
    intro he
    subst he
    exact firstResult_ne_some_empty _ _ h
  simp only [runTask, h]

theorem tryFile_ne_some_empty {V : Type} (env : Env V) (directories : List String)
    (filename : String) : tryFile env directories filename ≠ some "" :=
  firstResult_ne_some_empty _ _

/-- C2: `runTask` resolves exactly the three candidates
`[tryFile(directories, taskName + "/index.js"), "mrm-task-" + taskName,
taskName]` in that priority order; when none resolves it throws
`MrmUnknownTask` carrying the task name, and otherwise it loads the first
resolvable candidate and calls its entry point with a fresh config getter over
`options` and the raw `argv`. -/
theorem runTask_candidates_and_unknown_task (env : Env Value) (taskName : String)
    (directories : List String) (options argv : Obj Value) :
    (tryResolve env
        [tryFile env directories (taskName ++ "/index.js"),
         some ("mrm-task-" ++ taskName), some taskName] = none →
      runTask env taskName directories options argv
        = ([], some (.MrmUnknownTask taskName))) ∧
    (∀ p, tryResolve env
        [tryFile env directories (taskName ++ "/index.js"),
         some ("mrm-task-" ++ taskName), some taskName] = some p →
      runTask env taskName directories options argv
        = (Event.logRunningTask taskName ::
            ((env.moduleAt p).behavior (getConfigGetter options) argv).1,
           ((env.moduleAt p).behavior (getConfigGetter options) argv).2)) ∧
    (∀ f p, tryFile env directories (taskName ++ "/index.js") = some f →
      env.resolve f = some p → p ≠ "" →
      tryResolve env
        [tryFile env directories (taskName ++ "/index.js"),
         some ("mrm-task-" ++ taskName), some taskName] = some p) ∧
    (∀ p, tryFile env directories (taskName ++ "/index.js") = none →
      env.resolve ("mrm-task-" ++ taskName) = some p → p ≠ "" →
      tryResolve env
        [tryFile env directories (taskName ++ "/index.js"),
         some ("mrm-task-" ++ taskName), some taskName] = some p) ∧
    (∀ p, taskName ≠ "" → tryFile env directories (taskName ++ "/index.js") = none →
      env.resolve ("mrm-task-" ++ taskName) = none →
      env.resolve taskName = some p → p ≠ "" →
      tryResolve env
        [tryFile env directories (taskName ++ "/index.js"),
         some ("mrm-task-" ++ taskName), some taskName] = some p) ∧
    (tryFile env directories (taskName ++ "/index.js") = none →
      env.resolve ("mrm-task-" ++ taskName) = none →
      env.resolve taskName = none →
      tryResolve env
        [tryFile env directories (taskName ++ "/index.js"),
         some ("mrm-task-" ++ taskName), some taskName] = none) := by
  refine ⟨?_, ?_, ?_, ?_, ?_, ?_⟩
  · exact runTask_eq_of_resolve_none env taskName directories options argv
  · exact runTask_eq_of_resolve_some env taskName directories options argv
  · intro f p hTF hres hp
    have hf : f ≠ "" := by
      intro he
      subst he
      exact tryFile_ne_some_empty env directories (taskName ++ "/index.js") hTF
    simp [tryResolve, hTF, firstResult, hf, hres, hp]
  · intro p hTF hres hp
    simp [tryResolve, hTF, firstResult, strAppend_mrm_task_ne_empty taskName, hres, hp]
  · intro p ht hTF hres2 hres3 hp
    simp [tryResolve, hTF, firstResult, strAppend_mrm_task_ne_empty taskName,
      hres2, ht, hres3, hp]
  · intro hTF hres2 hres3
    by_cases ht : taskName = ""
    · rw [ht] at hTF hres2 ⊢
      simp only [String.append_empty, String.empty_append] at hTF hres2
      simp [tryResolve, hTF, firstResult, hres2]
    · simp [tryResolve, hTF, firstResult, strAppend_mrm_task_ne_empty taskName,
        hres2, ht, hres3]

/-- The environment of the C2 witness: the task `loc` has a directory-local
module under `dir`, the task `pkg` resolves only as the package
`mrm-task-pkg`, and the task `nope` resolves nowhere. -/
def envC2 : Env Value where
  fileExists := fun p => p == "dir/loc/index.js"
  resolve := fun s =>
    if s == "dir/loc/index.js" then some "dir/loc/index.js"
    else if s == "mrm-task-pkg" then some "/npm/mrm-task-pkg" else none
  configAt := fun _ => []
  globIndexJs := fun _ => []
  moduleAt := fun p =>
    if p == "/npm/mrm-task-pkg" then ⟨fun _ _ => ([.taskOutput 7], none), none⟩
    else ⟨fun _ _ => ([.taskOutput 5], none), none⟩

/-- Witness for C2: the unresolvable task `nope` fails with
`MrmUnknownTask("nope")`; the package-resolved task `pkg` runs its module; and
the directory-local candidate for `loc` takes priority. -/
theorem runTask_candidates_and_unknown_task_witness :
    runTask envC2 "nope" ["dir"] [] [] = ([], some (.MrmUnknownTask "nope")) ∧
    runTask envC2 "pkg" ["dir"] [] []
      = ([Event.logRunningTask "pkg", Event.taskOutput 7], none) ∧
    tryResolve envC2
      [tryFile envC2 ["dir"] ("loc" ++ "/index.js"),
       some ("mrm-task-" ++ "loc"), some "loc"] = some "dir/loc/index.js" := by
  refine ⟨?_, ?_, ?_⟩
  · exact (runTask_candidates_and_unknown_task envC2 "nope" ["dir"] [] []).1 (by decide)
  · rw [(runTask_candidates_and_unknown_task envC2 "pkg" ["dir"] [] []).2.1
      "/npm/mrm-task-pkg" (by decide)]
    rfl
  · exact (runTask_candidates_and_unknown_task envC2 "loc" ["dir"] [] []).2.2.1
      "dir/loc/index.js" "dir/loc/index.js" (by decide) (by decide) (by decide)

theorem forEachRun_all_ok {α : Type u} (body : α → Exec) (items : List α)
    (h : ∀ x ∈ items, (body x).2 = none) :
    forEachRun body items = ((items.map fun x => (body x).1).flatten, none) := by
  induction items with
  | nil => rfl
  | cons x rest ih =>
    have hx : (body x).2 = none := h x (List.mem_cons_self x rest)
    rw [forEachRun]
    simp only [hx]
    rw [ih fun y hy => h y (List.mem_cons_of_mem x hy)]
    simp [List.flatten_cons]

theorem forEachRun_first_fail {α : Type u} (body : α → Exec) (pre : List α) (x : α)
    (post : List α) (e : MrmError) (hpre : ∀ y ∈ pre, (body y).2 = none)
    (hx : (body x).2 = some e) :
    forEachRun body (pre ++ x :: post)
      = ((pre.map fun y => (body y).1).flatten ++ (body x).1, some e) := by
  induction pre with
  | nil =>
    rw [List.nil_append, forEachRun]
    simp [hx]
  | cons y rest ih =>
    have hy : (body y).2 = none := hpre y (List.mem_cons_self y rest)
    rw [List.cons_append, forEachRun]
    simp only [hy]
    rw [ih fun z hz => hpre z (List.mem_cons_of_mem y hz)]
    simp [List.flatten_cons]

/-- C1: when the alias mapping sends `aliasName` to the task list `ts`,
`runAlias` runs the listed tasks with `runTask` strictly in list order — the
run's trace is the alias log line followed by the concatenation of the tasks'
traces in list order.  When every task succeeds, all of them run; when a task
fails, the tasks before it have all run, its own error propagates unchanged,
and no later task contributes anything. -/
theorem runAlias_order_and_stop_on_failure (env : Env Value) (aliasName : String)
    (directories : List String) (options argv : Obj Value) :
    (∀ ts, olookup (getAllAliases options) aliasName = some (.vlist ts) →
      (∀ t ∈ ts, (runTask env t directories options argv).2 = none) →
      runAlias env aliasName directories options argv
        = (Event.logRunningAlias aliasName ::
            (ts.map fun t => (runTask env t directories options argv).1).flatten,
           none)) ∧
    (∀ pre t post e,
      olookup (getAllAliases options) aliasName = some (.vlist (pre ++ t :: post)) →
      (∀ y ∈ pre, (runTask env y directories options argv).2 = none) →
      (runTask env t directories options argv).2 = some e →
      runAlias env aliasName directories options argv
        = (Event.logRunningAlias aliasName ::
            ((pre.map fun y => (runTask env y directories options argv).1).flatten
              ++ (runTask env t directories options argv).1),
           some e)) := by
  constructor
  · intro ts hts hok
    simp only [runAlias, hts, truthyOpt, truthyValue]
    rw [forEachRun_all_ok _ _ hok]
    simp
  · intro pre t post e hts hpre hfail
    simp only [runAlias, hts, truthyOpt, truthyValue]
    rw [forEachRun_first_fail _ _ _ _ _ hpre hfail]
    simp

/-- The environment of the C1 witness: tasks `a`, `b`, `c` resolve as packages;
`a` and `c` succeed emitting one output event each, `b` fails. -/
def envC1 : Env Value where
  fileExists := fun _ => false
  resolve := fun s =>
    if s == "mrm-task-a" then some "/m/a"
    else if s == "mrm-task-b" then some "/m/b"
    else if s == "mrm-task-c" then some "/m/c" else none
  configAt := fun _ => []
  globIndexJs := fun _ => []
  moduleAt := fun p =>
    if p == "/m/a" then ⟨fun _ _ => ([.taskOutput 1], none), none⟩
    else if p == "/m/b" then ⟨fun _ _ => ([.taskOutput 2], some (.TaskFailure 9)), none⟩
    else ⟨fun _ _ => ([.taskOutput 3], none), none⟩

/-- The options of the C1 witness: aliases `setup = [a, b, c]` (with the
failing `b` in the middle) and `good = [a, c]`. -/
def optionsC1 : Obj Value :=
  [("aliases", .vobj [("setup", .vlist ["a", "b", "c"]), ("good", .vlist ["a", "c"])])]

/-- Witness for C1: running alias `good` runs `a` fully, then `c`; running
`setup` runs `a` fully, then `b`, whose failure propagates unchanged and
prevents `c` from contributing anything. -/
theorem runAlias_order_and_stop_on_failure_witness :
    runAlias envC1 "good" [] optionsC1 []
      = ([.logRunningAlias "good", .logRunningTask "a", .taskOutput 1,
          .logRunningTask "c", .taskOutput 3], none) ∧
    runAlias envC1 "setup" [] optionsC1 []
      = ([.logRunningAlias "setup", .logRunningTask "a", .taskOutput 1,
          .logRunningTask "b", .taskOutput 2], some (.TaskFailure 9)) := by
  constructor
  · rw [(runAlias_order_and_stop_on_failure envC1 "good" [] optionsC1 []).1
      ["a", "c"] rfl (by decide)]
    rfl
  · rw [(runAlias_order_and_stop_on_failure envC1 "setup" [] optionsC1 []).2
      ["a"] "b" ["c"] (.TaskFailure 9) rfl (by decide) (by decide)]
    rfl

/-- C10: through `run` with a single name, the `MrmUnknownAlias` throw of
`runAlias` is unreachable: a name whose alias entry is not truthy is routed to
`runTask` (which yields `MrmUnknownTask` when unresolvable), and when the name
is routed to `runAlias` the same lookup in the same mapping is truthy, so the
throw branch — whose result is an empty trace with `MrmUnknownAlias` — is
never taken; `run` can only produce that result shape by no input. -/
theorem run_single_never_unknown_alias (env : Env Value) (name : String)
    (directories : List String) (options argv : Obj Value) :
    (run env (.inl name) directories options argv
      = runSingle env name directories options argv) ∧
    (truthyOpt (olookup (getAllAliases options) name) = false →
      run env (.inl name) directories options argv
        = runTask env name directories options argv) ∧
    (∀ a, run env (.inl name) directories options argv
        ≠ ([], some (.MrmUnknownAlias a))) := by
  refine ⟨rfl, ?_, ?_⟩
  · intro h
    simp [run, runSingle, h]
  · intro a
    show runSingle env name directories options argv ≠ _
    by_cases htr : truthyOpt (olookup (getAllAliases options) name) = true
    · rw [runSingle, if_pos htr]
      cases hl : olookup (getAllAliases options) name with
      | none =>
        rw [hl] at htr
        exact absurd htr (by decide)
      | some v =>
        rw [runAlias]
        simp only [hl]
        rw [hl] at htr
        rw [if_neg (by rw [htr]; exact fun hc => Bool.noConfusion hc)]
        cases v with
        | vlist ts =>
          intro hc
          exact List.noConfusion (congrArg Prod.fst hc)
        | vnum n => intro hc; exact List.noConfusion (congrArg Prod.fst hc)
        | vstr s => intro hc; exact List.noConfusion (congrArg Prod.fst hc)
        | vbool b => intro hc; exact List.noConfusion (congrArg Prod.fst hc)
        | vobj m => intro hc; exact List.noConfusion (congrArg Prod.fst hc)
    · have hf : truthyOpt (olookup (getAllAliases options) name) = false :=
        Bool.not_eq_true _ ▸ htr
      rw [runSingle, if_neg (by rw [hf]; exact fun hc => Bool.noConfusion hc)]
      cases hres : tryResolve env
          [tryFile env directories (name ++ "/index.js"),
           some ("mrm-task-" ++ name), some name] with
      | none =>
        rw [runTask_eq_of_resolve_none env name directories options argv hres]
        intro hc
        have h2 := congrArg Prod.snd hc
        simp only at h2
        exact MrmError.noConfusion (Option.some.inj h2)
      | some p =>
        rw [runTask_eq_of_resolve_some env name directories options argv p hres]
        intro hc
        exact List.noConfusion (congrArg Prod.fst hc)

/-- Witness for C10: with no aliases defined, `run` on the unresolvable name
`nope` takes the `runTask` route and fails with `MrmUnknownTask`, not
`MrmUnknownAlias`; and with the C1 aliases present, `run` on `setup` does not
produce the unknown-alias result either. -/
theorem run_single_never_unknown_alias_witness :
    run envC2 (.inl "nope") ["dir"] [] []
      = runTask envC2 "nope" ["dir"] [] [] ∧
    run envC2 (.inl "nope") ["dir"] [] []
      ≠ ([], some (.MrmUnknownAlias "nope")) ∧
    run envC1 (.inl "setup") [] optionsC1 []
      ≠ ([], some (.MrmUnknownAlias "setup")) := by
  refine ⟨?_, ?_, ?_⟩
  · exact (run_single_never_unknown_alias envC2 "nope" ["dir"] [] []).2.1 (by decide)
  · exact (run_single_never_unknown_alias envC2 "nope" ["dir"] [] []).2.2 "nope"
  · exact (run_single_never_unknown_alias envC1 "setup" [] optionsC1 []).2.2 "setup"

theorem olookup_append_single (acc : Obj V) (n : String) (v : V) (k : String) :
    olookup (acc ++ [(n, v)]) k = if k = n then some v else olookup acc k := by
  rw [olookup_append]
  by_cases h : k = n
  · simp [olookup, h]
  · simp [olookup, h]

theorem olookup_mem (m : Obj V) (k : String) (v : V) (h : olookup m k = some v) :
    (k, v) ∈ m := by
  induction m with
  | nil => exact absurd h (by simp)
  | cons hd tl ih =>
    obtain ⟨k', v'⟩ := hd
    rw [olookup_cons] at h
    cases htl : olookup tl k with
    | some w =>
      rw [htl, orOpt_some] at h
      obtain rfl : w = v := Option.some.inj h
      exact List.mem_cons_of_mem _ (ih htl)
    | none =>
      rw [htl, orOpt_none] at h
      by_cases hk : k = k'
      · rw [if_pos hk] at h
        rw [hk, Option.some.inj h]
        exact List.mem_cons_self _ _
      · rw [if_neg hk] at h
        exact absurd h (by simp)

theorem scanFiles_preserves_truthy (env : Env Value) (files : List String) :
    ∀ (acc : Obj Value) (k : String) (v : Value), olookup acc k = some v →
      truthyValue v = true →
      olookup (getAllTasksScanFiles env files acc) k = some v := by
  induction files with
  | nil => intro acc k v h _; exact h
  | cons f rest ih =>
    intro acc k v h htr
    rw [getAllTasksScanFiles]
    refine ih _ k v ?_ htr
    simp only [getAllTasksScanFile]
    by_cases hc : truthyOpt (olookup acc (taskNameOf f)) = true
    · rw [if_pos hc]
      exact h
    · rw [if_neg hc, olookup_append_single]
      by_cases hk : k = taskNameOf f
      · exfalso
        apply hc
        rw [← hk, h]
        exact htr
      · rw [if_neg hk]
        exact h

theorem scanFiles_isSome (env : Env Value) (files : List String) :
    ∀ (acc : Obj Value) (k : String), (olookup acc k).isSome = true →
      (olookup (getAllTasksScanFiles env files acc) k).isSome = true := by
  induction files with
  | nil => intro acc k h; exact h
  | cons f rest ih =>
    intro acc k h
    rw [getAllTasksScanFiles]
    refine ih _ k ?_
    simp only [getAllTasksScanFile]
    by_cases hc : truthyOpt (olookup acc (taskNameOf f)) = true
    · rw [if_pos hc]
      exact h
    · rw [if_neg hc, olookup_append_single]
      by_cases hk : k = taskNameOf f
      · rw [if_pos hk]
        rfl
      · rw [if_neg hk]
        exact h

theorem scanFiles_covers (env : Env Value) (files : List String) :
    ∀ (acc : Obj Value) (f : String), f ∈ files →
      (olookup (getAllTasksScanFiles env files acc) (taskNameOf f)).isSome = true := by
  induction files with
  | nil => intro acc f hf; exact absurd hf (List.not_mem_nil f)
  | cons g rest ih =>
    intro acc f hf
    rw [getAllTasksScanFiles]
    rcases List.mem_cons.mp hf with rfl | hf'
    · apply scanFiles_isSome
      simp only [getAllTasksScanFile]
      by_cases hc : truthyOpt (olookup acc (taskNameOf f)) = true
      · rw [if_pos hc]
        cases ho : olookup acc (taskNameOf f) with
        | none =>
          rw [ho] at hc
          exact absurd hc (by decide)
        | some v => rfl
      · rw [if_neg hc, olookup_append_single, if_pos rfl]
        rfl
    · exact ih _ f hf'

theorem scanFiles_new_entries (env : Env Value) (files : List String) :
    ∀ (acc : Obj Value) (k : String),
      olookup (getAllTasksScanFiles env files acc) k = olookup acc k ∨
      ∃ f ∈ files, taskNameOf f = k ∧
        olookup (getAllTasksScanFiles env files acc) k
          = some (.vstr ((env.moduleAt f).description.getD "")) := by
  induction files with
  | nil => intro acc k; exact Or.inl rfl
  | cons g rest ih =>
    intro acc k
    rw [getAllTasksScanFiles]
    rcases ih (getAllTasksScanFile env acc g) k with h | ⟨f, hf, hfk, hres⟩
    · by_cases hc : truthyOpt (olookup acc (taskNameOf g)) = true
      · left
        rw [h]
        simp only [getAllTasksScanFile]
        rw [if_pos hc]
      · by_cases hk : k = taskNameOf g
        · right
          refine ⟨g, List.mem_cons_self g rest, hk.symm, ?_⟩
          rw [h]
          simp only [getAllTasksScanFile]
          rw [if_neg hc, olookup_append_single, if_pos hk]
        · left
          rw [h]
          simp only [getAllTasksScanFile]
          rw [if_neg hc, olookup_append_single, if_neg hk]
    · exact Or.inr ⟨f, List.mem_cons_of_mem g hf, hfk, hres⟩

theorem scanFiles_append (env : Env Value) (a b : List String) :
    ∀ acc, getAllTasksScanFiles env (a ++ b) acc
      = getAllTasksScanFiles env b (getAllTasksScanFiles env a acc) := by
  induction a with
  | nil => intro acc; rfl
  | cons f rest ih =>
    intro acc
    rw [List.cons_append, getAllTasksScanFiles, ih]
    rfl

theorem scanDirs_eq_scanFiles (env : Env Value) (directories : List String) :
    ∀ acc, getAllTasksScanDirs env directories acc
      = getAllTasksScanFiles env ((directories.map env.globIndexJs).flatten) acc := by
  induction directories with
  | nil => intro acc; rfl
  | cons d rest ih =>
    intro acc
    rw [getAllTasksScanDirs, ih, List.map_cons, List.flatten_cons, scanFiles_append]

/-- C9: the mapping returned by `getAllTasks` contains every alias entry of
`options` unchanged (alias entries, being truthy, are never overwritten by a
later-discovered task of the same name), has an entry for the task name of
every glob match of every search directory, and maps every non-alias name it
contains to the `description` (or `""` when none is declared) of one of the
discovered modules with that task name. -/
theorem getAllTasks_lists_aliases_and_discovered (env : Env Value)
    (directories : List String) (options : Obj Value)
    (h : ∀ e ∈ getAllAliases options, truthyValue e.2 = true) :
    (∀ k v, olookup (getAllAliases options) k = some v →
      olookup (getAllTasks env directories options).1 k = some v) ∧
    (∀ f ∈ (directories.map env.globIndexJs).flatten,
      (olookup (getAllTasks env directories options).1 (taskNameOf f)).isSome = true) ∧
    (∀ k, olookup (getAllAliases options) k = none →
      ∀ v, olookup (getAllTasks env directories options).1 k = some v →
      ∃ f ∈ (directories.map env.globIndexJs).flatten, taskNameOf f = k ∧
        v = .vstr ((env.moduleAt f).description.getD "")) := by
  refine ⟨?_, ?_, ?_⟩
  · intro k v hkv
    have hv : truthyValue v = true := h (k, v) (olookup_mem _ k v hkv)
    show olookup (getAllTasksScanDirs env directories (getAllAliases options)) k
      = some v
    rw [scanDirs_eq_scanFiles]
    exact scanFiles_preserves_truthy env _ _ k v hkv hv
  · intro f hf
    show (olookup (getAllTasksScanDirs env directories (getAllAliases options))
      (taskNameOf f)).isSome = true
    rw [scanDirs_eq_scanFiles]
    exact scanFiles_covers env _ _ f hf
  · intro k hnone v hres
    have hres' : olookup (getAllTasksScanFiles env
        ((directories.map env.globIndexJs).flatten) (getAllAliases options)) k
        = some v := by
      rw [← scanDirs_eq_scanFiles]
      exact hres
    rcases scanFiles_new_entries env ((directories.map env.globIndexJs).flatten)
        (getAllAliases options) k with hsame | ⟨f, hf, hfk, hval⟩
    · rw [hsame, hnone] at hres'
      exact absurd hres' (by simp)
    · rw [hval] at hres'
      exact ⟨f, hf, hfk, (Option.some.inj hres').symm⟩

/-- The environment of the C9 witness: the directory `tasks` contains the task
`foo` (module description `Foo`) and the task `bar` (no description). -/
def envC9 : Env Value where
  fileExists := fun _ => false
  resolve := fun _ => none
  configAt := fun _ => []
  globIndexJs := fun d =>
    if d == "tasks" then ["tasks/foo/index.js", "tasks/bar/index.js"] else []
  moduleAt := fun p =>
    if p == "tasks/foo/index.js" then ⟨fun _ _ => ([], none), some "Foo"⟩
    else ⟨fun _ _ => ([], none), none⟩

/-- The options of the C9 witness: one alias `setup = [a]`. -/
def optionsC9 : Obj Value := [("aliases", .vobj [("setup", .vlist ["a"])])]

/-- Witness for C9: the result keeps the alias `setup` entry, has an entry for
the discovered task `foo`, and maps `foo` to its module's description. -/
theorem getAllTasks_lists_aliases_and_discovered_witness :
    olookup (getAllTasks envC9 ["tasks"] optionsC9).1 "setup" = some (.vlist ["a"]) ∧
    (olookup (getAllTasks envC9 ["tasks"] optionsC9).1 "foo").isSome = true ∧
    (∃ f ∈ (["tasks"].map envC9.globIndexJs).flatten, taskNameOf f = "foo" ∧
      Value.vstr "Foo" = .vstr ((envC9.moduleAt f).description.getD "")) := by
  refine ⟨?_, ?_, ?_⟩
  · exact (getAllTasks_lists_aliases_and_discovered envC9 ["tasks"] optionsC9
      (by decide)).1 "setup" (.vlist ["a"]) rfl
  · exact (getAllTasks_lists_aliases_and_discovered envC9 ["tasks"] optionsC9
      (by decide)).2.1 "tasks/foo/index.js" (by decide)
  · exact (getAllTasks_lists_aliases_and_discovered envC9 ["tasks"] optionsC9
      (by decide)).2.2 "foo" rfl (.vstr "Foo") rfl

/-- The environment of the C8 refutation: the directory `tasks` contains a
single discoverable task `foo` whose module declares the description
`Foo task`. -/
def envC8 : Env Value where
  fileExists := fun _ => false
  resolve := fun _ => none
  configAt := fun _ => []
  globIndexJs := fun d => if d == "tasks" then ["tasks/foo/index.js"] else []
  moduleAt := fun _ => ⟨fun _ _ => ([], none), some "Foo task"⟩

/-- The options of the C8 refutation: one alias, `setup = [a]`. -/
def optionsC8 : Obj Value := [("aliases", .vobj [("setup", .vlist ["a"])])]

/-- C8 (refuted — code bug): `getAllTasks` starts its accumulator as
`getAllAliases(options)`, which is the very `aliases` object stored inside the
caller's `options`, so recording a discovered task's description writes
through to `options`: after the call, `options.aliases` has gained the entry
`foo ↦ "Foo task"` the caller never put there, the post-call `options` differs
from the original, and a subsequent `run("foo")` mis-dispatches to `runAlias`
and dies with a `TypeError` on `tasks.forEach`. -/
theorem getAllTasks_mutates_reachable_options :
    olookup (getAllAliases optionsC8) "foo" = none ∧
    olookup (getAllAliases (getAllTasks envC8 ["tasks"] optionsC8).2) "foo"
      = some (.vstr "Foo task") ∧
    (getAllTasks envC8 ["tasks"] optionsC8).2 ≠ optionsC8 ∧
    runSingle envC8 "foo" ["tasks"] (getAllTasks envC8 ["tasks"] optionsC8).2 []
      = ([Event.logRunningAlias "foo"], some .TypeErrorThrown) := by
  refine ⟨rfl, rfl, ?_, rfl⟩
  intro h
  have h2 : (some (Value.vstr "Foo task") : Option Value) = none :=
    calc some (Value.vstr "Foo task")
        = olookup (getAllAliases (getAllTasks envC8 ["tasks"] optionsC8).2) "foo" :=
          rfl
      _ = olookup (getAllAliases optionsC8) "foo" := by rw [h]
      _ = none := rfl
  exact Option.noConfusion h2

end Mrm
